import Mathlib

/-
Shallow embedding of the abstract-resolver pipeline in src/get_abstracts.py.

Cells of the pandas data frame are modelled as Option String, with none
standing for a missing value (NaN).  A fetched HTML page is abstracted as
the results of the five BeautifulSoup queries that get_abstract performs
(meta tag named citation_abstract, heading whose text contains Abstract
together with its following siblings, and the element carrying an
abstract class); element texts are stored after get_text(strip=True).
The network is an environment function from URL to the outcome of
requests.get.  The run loop of main is explicit state passing over a
RunState that carries the data frame, the current content of the output
file, and a ghost log of the links handed to get_abstract.
-/

namespace Scrap

/-- Python str.lower, modelled per character (links are ASCII). -/
def pyLower (s : String) : String := ⟨s.data.map Char.toLower⟩

/-- Python str.endswith. -/
def pyEndsWith (s suffix : String) : Bool := decide (suffix.data <:+ s.data)

/-- Python str.strip with no argument: remove leading and trailing
whitespace. -/
def pyStrip (s : String) : String :=
  ⟨((s.data.dropWhile Char.isWhitespace).reverse.dropWhile Char.isWhitespace).reverse⟩

/-- Python len on a string. -/
def pyLen (s : String) : Nat := s.data.length

/-- One row of the papers table, columns Year, Title, Authors, Link,
Abstract.  A cell is none when the value is missing (NaN); an input file
without an Abstract column is modelled by rows whose abstract is none,
matching the initialisation in main. -/
structure Row where
  year : Option String
  title : Option String
  authors : Option String
  link : Option String
  abstract : Option String
deriving DecidableEq

/-- Context of a located Abstract heading: text of the next sibling p,
of the next sibling div, and of the nearest following p-or-div in
document order, each after get_text(strip=True). -/
structure HeaderCtx where
  nextSiblingP : Option String
  nextSiblingDiv : Option String
  nextElem : Option String
deriving DecidableEq

/-- A fetched page, abstracted as the results of the queries made by
get_abstract.  citationAbstract is none when no meta tag named
citation_abstract exists, and some c when it exists with content
attribute c (c is none when the attribute is absent).  abstractHeader is
the located h2/h3/h4 heading whose text contains Abstract, if any.
abstractClassElem is the stripped text of the element with class
abstract, if any. -/
structure Page where
  citationAbstract : Option (Option String)
  abstractHeader : Option HeaderCtx
  abstractClassElem : Option String
deriving DecidableEq

/-- Outcome of requests.get for a given URL: either an exception
(timeout, connection error, ...) or a response with a status code and a
parsed page. -/
inductive HttpResult where
  | exn : HttpResult
  | resp : Nat → Page → HttpResult
deriving DecidableEq

/-- Outcome of the body of the try block in get_abstract:
raisedRateLimit models the raise of RateLimitException on status 429,
raisedOther any other exception, returned a normal return. -/
inductive TryOutcome where
  | raisedRateLimit : TryOutcome
  | raisedOther : TryOutcome
  | returned : Option String → TryOutcome
deriving DecidableEq

/-- Strategies 2 and 3 of get_abstract, reached when strategy 1 (the
citation_abstract meta tag) does not produce a result: first the heading
heuristic with its three fallbacks, then the abstract-class element. -/
def extractAfterMeta (soup : Page) : Option String :=
  match soup.abstractHeader with
  | some h =>
    match h.nextSiblingP with
    | some t => some t
    | none =>
      match h.nextSiblingDiv with
      | some t => some t
      | none =>
        match h.nextElem with
        | some t => some t
        | none => soup.abstractClassElem
  | none => soup.abstractClassElem

/-- The three extraction strategies of get_abstract on a status-200
page, in source order.  Strategy 1 fires only when the meta tag exists
and its content attribute is a non-empty string (Python truthiness of
meta_desc.get applied to content), and then returns the stripped
content. -/
def extractAbstract (soup : Page) : Option String :=
  match soup.citationAbstract with
  | some (some content) =>
    if content = ("") then extractAfterMeta soup else some (pyStrip content)
  | some none => extractAfterMeta soup
  | none => extractAfterMeta soup

/-- Body of the try block of get_abstract: perform the GET, raise the
rate-limit signal on status 429, return none on any other non-200
status, and otherwise run the extraction strategies. -/
def get_abstract_tryBody (env : String → HttpResult) (u : String) : TryOutcome :=
  match env u with
  | .exn => .raisedOther
  | .resp status page =>
    if status = 429 then .raisedRateLimit
    else if status = 200 then .returned (extractAbstract page)
    else .returned none

/-- get_abstract from src/get_abstracts.py.  The initial guard returns
none when the link is not a string, is shorter than 5 characters, or
ends (case-insensitively) in .pdf.  The try block is wrapped in
an except clause catching Exception and returning None; since
RateLimitException subclasses Exception, a raise on status 429 is also
caught here and turned into None. -/
def get_abstract (env : String → HttpResult) (url : Option String) : Option String :=
  match url with
  | none => none
  | some u =>
    if pyLen u < 5 ∨ pyEndsWith (pyLower u) (".pdf") = true then none
    else
      match get_abstract_tryBody env u with
      | .raisedRateLimit => none
      | .raisedOther => none
      | .returned a => a

/-- The URLs for which get_abstract issues a network request:
requests.get is reached exactly when the initial guard passes. -/
def get_abstract_requests (url : Option String) : List String :=
  match url with
  | none => []
  | some u =>
    if pyLen u < 5 ∨ pyEndsWith (pyLower u) (".pdf") = true then []
    else [u]

/-- Truthiness of the skip test in the run loop:
pd.notna(abstract) and str(abstract).strip(). -/
def abstractResolved (a : Option String) : Bool :=
  match a with
  | some s => decide (pyStrip s ≠ (""))
  | none => false

/-- State of the output file at startup: absent, existing but not
readable as a table (read_csv raises), or a readable table together with
flags recording whether it has a Link column and an Abstract column. -/
inductive Ckpt where
  | absent : Ckpt
  | unreadable : Ckpt
  | table : (hasLink : Bool) → (hasAbstract : Bool) → List Row → Ckpt

/-- The dictionary built in the resume step:
df_existing.dropna(subset of Link and Abstract).set_index(Link)
[Abstract].to_dict().  Rows whose link or abstract is missing are
dropped; on duplicate links the later row wins, which the recursion
models by consulting the tail first. -/
def existingLookup : List Row → String → Option String
  | [], _ => none
  | r :: rs, l =>
    match existingLookup rs l with
    | some a => some a
    | none =>
      match r.link, r.abstract with
      | some lr, some a => if lr = l then some a else none
      | _, _ => none

/-- Effect of df.Link.map(existing_map).fillna(df.Abstract) on one row:
a hit in the dictionary replaces the abstract, otherwise the original
abstract is kept. -/
def mergeRow (ckptRows : List Row) (r : Row) : Row :=
  match r.link with
  | none => r
  | some l =>
    match existingLookup ckptRows l with
    | some a => { r with abstract := some a }
    | none => r

/-- The resume step of main over a freshly loaded corpus.  The Bool
records whether the warning of the except branch was printed: only
reading failure reaches it; a readable table lacking the Abstract or
Link column silently skips the merge. -/
def loadAndMerge (ckpt : Ckpt) (df : List Row) : List Row × Bool :=
  match ckpt with
  | .absent => (df, false)
  | .unreadable => (df, true)
  | .table hasLink hasAbstract rows =>
    if hasAbstract && hasLink then (df.map (mergeRow rows), false)
    else (df, false)

/-- State threaded through the run loop: the in-memory data frame, the
content of the output file (none when it does not hold a table), and a
ghost log of the links handed to get_abstract, in order. -/
structure RunState where
  df : List Row
  saved : Option (List Row)
  fetched : List String
deriving DecidableEq

/-- The link the loop body hands to get_abstract for a given row, if
any: none when the row is skipped because its abstract is already
resolved, its link is missing, or its link is the sentinel. -/
def attemptRow (r : Row) : Option String :=
  if abstractResolved r.abstract then none
  else
    match r.link with
    | none => none
    | some l => if l = ("N/A") then none else some l

/-- Effect of one iteration of the run loop on the row it visits:
skipped rows are unchanged, and a fetched abstract is written back only
when it is truthy (a non-empty string). -/
def stepRow (env : String → HttpResult) (r : Row) : Row :=
  if abstractResolved r.abstract then r
  else
    match r.link with
    | none => r
    | some l =>
      if l = ("N/A") then r
      else
        match get_abstract env (some l) with
        | some t => if t = ("") then r else { r with abstract := some t }
        | none => r

/-- One iteration of the run loop of main at row index i: skip if the
abstract is resolved or the link is missing or the sentinel (continue,
which also skips the checkpoint line), otherwise fetch, write back a
truthy result, and rewrite the output file when the 1-based row position
is a multiple of 20. -/
def processRow (env : String → HttpResult) (i : Nat) (st : RunState) : RunState :=
  match st.df[i]? with
  | none => st
  | some row =>
    if abstractResolved row.abstract then st
    else
      match row.link with
      | none => st
      | some l =>
        if l = ("N/A") then st
        else
          let a := get_abstract env (some l)
          let df2 :=
            match a with
            | some t => if t = ("") then st.df else st.df.set i { row with abstract := some t }
            | none => st.df
          { df := df2
            saved := if (i + 1) % 20 = 0 then some df2 else st.saved
            fetched := st.fetched ++ [l] }

/-- The run loop of main, executing the first k iterations.  A run that
terminates normally has k at least the length of the data frame; a
manual interruption or unexpected error after k completed iterations is
modelled by stopping there. -/
def runLoop (env : String → HttpResult) (st : RunState) (k : Nat) : RunState :=
  (List.range k).foldl (fun s i => processRow env i s) st

/-- Content of the output file at startup. -/
def ckptContent : Ckpt → Option (List Row)
  | .absent => none
  | .unreadable => none
  | .table _ _ rows => some rows

/-- State at loop entry: the merged corpus, the pre-existing output
file, and an empty fetch log. -/
def initState (ckpt : Ckpt) (df0 : List Row) : RunState :=
  { df := (loadAndMerge ckpt df0).1, saved := ckptContent ckpt, fetched := [] }

/-- main from load-and-merge to the finally clause: run the loop for
stop iterations (any abort path of the try block lands here), then
unconditionally rewrite the output file with the current data frame. -/
def mainRun (env : String → HttpResult) (ckpt : Ckpt) (df0 : List Row) (stop : Nat) : RunState :=
  let st := runLoop env (initState ckpt df0) stop
  { st with saved := some st.df }

/-- Number of records among the first k rows that the loop actually
processes (hands to get_abstract) rather than skips. -/
def processedCount (df : List Row) (k : Nat) : Nat :=
  ((df.take k).filterMap attemptRow).length

/-! Structural lemmas about the run loop. -/

theorem list_set_self {α : Type} (l : List α) (i : Nat) (a : α) (h : l[i]? = some a) :
    l.set i a = l := by
  induction l generalizing i with
  | nil => rfl
  | cons x xs ih =>
    cases i with
    | zero => simp_all
    | succ j =>
      simp only [List.getElem?_cons_succ] at h
      simp [List.set, ih j h]

theorem runLoop_zero (env : String → HttpResult) (st : RunState) : runLoop env st 0 = st := rfl

theorem runLoop_succ (env : String → HttpResult) (st : RunState) (k : Nat) :
    runLoop env st (k + 1) = processRow env k (runLoop env st k) := by
  simp [runLoop, List.range_succ]

/-- The effect of one loop iteration on the data frame is stepRow at the
visited row. -/
theorem processRow_df (env : String → HttpResult) (i : Nat) (st : RunState) :
    (processRow env i st).df =
      match st.df[i]? with
      | none => st.df
      | some r => st.df.set i (stepRow env r) := by
  unfold processRow stepRow
  cases h : st.df[i]? with
  | none => rfl
  | some r =>
    by_cases h1 : abstractResolved r.abstract
    · simp [h1, list_set_self st.df i r h]
    · simp only [h1]
      cases hl : r.link with
      | none => simp [list_set_self st.df i r h]
      | some l =>
        by_cases h2 : l = ("N/A")
        · simp [h2, list_set_self st.df i r h]
        · simp only [h2]
          cases ha : get_abstract env (some l) with
          | none => simp [list_set_self st.df i r h]
          | some t =>
            by_cases h3 : t = ("")
            · simp [h3, list_set_self st.df i r h]
            · simp [h3]

/-- The effect of one loop iteration on the fetch log is attemptRow at
the visited row. -/
theorem processRow_fetched (env : String → HttpResult) (i : Nat) (st : RunState) :
    (processRow env i st).fetched =
      st.fetched ++
        (match st.df[i]? with
         | none => []
         | some r => (attemptRow r).toList) := by
  unfold processRow attemptRow
  cases h : st.df[i]? with
  | none => simp
  | some r =>
    by_cases h1 : abstractResolved r.abstract
    · simp [h1]
    · simp only [h1]
      cases hl : r.link with
      | none => simp
      | some l =>
        by_cases h2 : l = ("N/A")
        · simp [h2]
        · simp only [h2]
          cases ha : get_abstract env (some l) with
          | none => simp
          | some t =>
            by_cases h3 : t = ("")
            · simp [h3]
            · simp [h3]

/-- A row whose link is missing or the sentinel is left unchanged by an
iteration. -/
theorem stepRow_skip_link (env : String → HttpResult) (r : Row)
    (h : r.link = none ∨ r.link = some ("N/A")) : stepRow env r = r := by
  unfold stepRow
  by_cases h1 : abstractResolved r.abstract
  · simp [h1]
  · rcases h with h | h <;> simp [h1, h]

/-- A row whose abstract is already resolved is left unchanged by an
iteration. -/
theorem stepRow_skip_resolved (env : String → HttpResult) (r : Row)
    (h : abstractResolved r.abstract = true) : stepRow env r = r := by
  unfold stepRow; simp [h]

/-- An iteration either leaves the row alone or only rewrites its
abstract with a truthy fetched string. -/
theorem stepRow_cases (env : String → HttpResult) (r : Row) :
    stepRow env r = r ∨
      ∃ t, t ≠ ("") ∧ get_abstract env r.link = some t ∧
        stepRow env r = { r with abstract := some t } := by
  unfold stepRow
  by_cases h1 : abstractResolved r.abstract
  · simp [h1]
  · simp only [h1]
    cases hl : r.link with
    | none => simp
    | some l =>
      by_cases h2 : l = ("N/A")
      · simp [h2]
      · simp only [h2]
        cases ha : get_abstract env (some l) with
        | none => simp
        | some t =>
          by_cases h3 : t = ("")
          · simp [h3]
          · exact Or.inr ⟨t, h3, rfl, by simp [h3]⟩

/-- The Year, Title, Authors and Link cells of a row survive an
iteration unchanged. -/
theorem stepRow_frame (env : String → HttpResult) (r : Row) :
    (stepRow env r).year = r.year ∧ (stepRow env r).title = r.title ∧
      (stepRow env r).authors = r.authors ∧ (stepRow env r).link = r.link := by
  rcases stepRow_cases env r with h | ⟨t, _, _, h⟩ <;> simp [h]

/-- An iteration of the loop is idempotent on a row, for a fixed
network environment. -/
theorem stepRow_idem (env : String → HttpResult) (r : Row) :
    stepRow env (stepRow env r) = stepRow env r := by
  rcases stepRow_cases env r with h | ⟨t, ht, ha, h⟩
  · rw [h, h]
  · rw [h]
    unfold stepRow
    by_cases h1 : abstractResolved ({ r with abstract := some t } : Row).abstract
    · simp [h1]
    · simp only [h1]
      cases hl : ({ r with abstract := some t } : Row).link with
      | none => rfl
      | some l =>
        by_cases h2 : l = ("N/A")
        · simp [h2]
        · simp only [h2]
          have hl2 : r.link = some l := hl
          rw [hl2] at ha
          simp [ha, ht]

/-- The link attemptRow selects is the row link, and never the
sentinel, and only for an unresolved abstract. -/
theorem attemptRow_eq_some (r : Row) (l : String) (h : attemptRow r = some l) :
    r.link = some l ∧ l ≠ ("N/A") ∧ abstractResolved r.abstract = false := by
  unfold attemptRow at h
  by_cases h1 : abstractResolved r.abstract
  · simp [h1] at h
  · simp only [h1] at h ⊢
    cases hl : r.link with
    | none => rw [hl] at h; simp at h
    | some l2 =>
      rw [hl] at h
      by_cases h2 : l2 = ("N/A")
      · simp [h2] at h
      · simp [h2] at h
        subst h
        exact ⟨rfl, h2, by simp [h1]⟩

/-- A resolved row is never attempted. -/
theorem attemptRow_of_resolved (r : Row) (h : abstractResolved r.abstract = true) :
    attemptRow r = none := by
  unfold attemptRow; simp [h]

/-- Pointwise description of the data frame after k iterations: the
first k rows have been stepped once, the rest are untouched. -/
theorem runLoop_getElem (env : String → HttpResult) (st : RunState) (k i : Nat) :
    (runLoop env st k).df[i]? =
      if i < k then (st.df[i]?).map (stepRow env) else st.df[i]? := by
  induction k generalizing i with
  | zero => simp [runLoop_zero]
  | succ n ih =>
    rw [runLoop_succ, processRow_df]
    have hstab : (runLoop env st n).df[n]? = st.df[n]? := by
      rw [ih n]; simp
    cases h : (runLoop env st n).df[n]? with
    | none =>
      rw [h] at hstab
      rw [ih i]
      by_cases hin : i = n
      · subst hin
        simp [← hstab]
      · rcases Nat.lt_or_ge i n with hlt | hge
        · simp [hlt, Nat.lt_succ_of_lt hlt]
        · have h1 : ¬ i < n := by omega
          have h2 : ¬ i < n + 1 := by omega
          simp [h1, h2]
    | some r =>
      rw [h] at hstab
      by_cases hin : i = n
      · subst hin
        have hlen : i < (runLoop env st i).df.length := by
          by_contra hc
          push_neg at hc
          rw [List.getElem?_eq_none hc] at h
          exact Option.noConfusion h
        rw [List.getElem?_set_self hlen, ← hstab]
        simp
      · rw [List.getElem?_set_ne (fun he => hin he.symm), ih i]
        rcases Nat.lt_or_ge i n with hlt | hge
        · simp [hlt, Nat.lt_succ_of_lt hlt]
        · have h1 : ¬ i < n := by omega
          have h2 : ¬ i < n + 1 := by omega
          simp [h1, h2]

/-- The loop never adds or removes rows. -/
theorem runLoop_length (env : String → HttpResult) (st : RunState) (k : Nat) :
    (runLoop env st k).df.length = st.df.length := by
  induction k with
  | zero => rfl
  | succ n ih =>
    rw [runLoop_succ, processRow_df]
    cases h : (runLoop env st n).df[n]? with
    | none => exact ih
    | some r => rw [List.length_set]; exact ih

/-- The links handed to get_abstract during the first k iterations are
exactly the attempted links of the first k rows of the initial frame, in
order. -/
theorem runLoop_fetched (env : String → HttpResult) (st : RunState) (k : Nat) :
    (runLoop env st k).fetched = st.fetched ++ (st.df.take k).filterMap attemptRow := by
  induction k with
  | zero => simp [runLoop_zero]
  | succ n ih =>
    rw [runLoop_succ, processRow_fetched]
    have hstab : (runLoop env st n).df[n]? = st.df[n]? := by
      rw [runLoop_getElem]; simp
    rw [hstab, ih, List.take_succ, List.filterMap_append, List.append_assoc]
    cases h : st.df[n]? with
    | none => simp
    | some r => cases har : attemptRow r <;> simp [List.filterMap_cons, har]

/-- A completed run maps stepRow over the whole initial frame. -/
theorem runLoop_df_map (env : String → HttpResult) (st : RunState) (k : Nat)
    (h : st.df.length ≤ k) : (runLoop env st k).df = st.df.map (stepRow env) := by
  apply List.ext_getElem?
  intro i
  rw [runLoop_getElem, List.getElem?_map]
  by_cases hik : i < k
  · simp [hik]
  · have hlen : st.df.length ≤ i := by omega
    rw [List.getElem?_eq_none hlen]
    simp [hik]

/-! Lemmas about the resume dictionary. -/

/-- The dictionary has no entry for a link no checkpoint row carries. -/
theorem existingLookup_eq_none (rows : List Row) (l : String)
    (h : ∀ c ∈ rows, c.link ≠ some l) : existingLookup rows l = none := by
  induction rows with
  | nil => rfl
  | cons r rs ih =>
    unfold existingLookup
    rw [ih (fun c hc => h c (List.mem_cons_of_mem r hc))]
    cases hl : r.link with
    | none => rfl
    | some lr =>
      cases ha : r.abstract with
      | none => rfl
      | some a =>
        have : lr ≠ l := by
          intro he
          exact h r (List.mem_cons_self r rs) (by rw [hl, he])
        simp [this]

/-- Any dictionary hit comes from a checkpoint row with that link and
that (present) abstract. -/
theorem existingLookup_mem (rows : List Row) (l b : String)
    (h : existingLookup rows l = some b) :
    ∃ c ∈ rows, c.link = some l ∧ c.abstract = some b := by
  induction rows with
  | nil => exact absurd h (by simp [existingLookup])
  | cons r rs ih =>
    unfold existingLookup at h
    cases hrs : existingLookup rs l with
    | some b2 =>
      simp only [hrs, Option.some_inj] at h
      subst h
      obtain ⟨c, hc, hcl, hca⟩ := ih hrs
      exact ⟨c, List.mem_cons_of_mem r hc, hcl, hca⟩
    | none =>
      simp only [hrs] at h
      cases hl : r.link with
      | none => simp only [hl] at h; exact Option.noConfusion h
      | some lr =>
        cases ha : r.abstract with
        | none => simp only [hl, ha] at h; exact Option.noConfusion h
        | some a =>
          simp only [hl, ha] at h
          by_cases he : lr = l
          · rw [if_pos he] at h
            refine ⟨r, List.mem_cons_self r rs, ?_, ?_⟩
            · rw [hl, he]
            · rw [ha, Option.some_inj.mp h]
          · rw [if_neg he] at h
            exact absurd h (by simp)

/-- A checkpoint row with a present link and abstract guarantees a
dictionary hit for that link. -/
theorem existingLookup_isSome (rows : List Row) (c : Row) (l a : String)
    (hc : c ∈ rows) (hcl : c.link = some l) (hca : c.abstract = some a) :
    ∃ b, existingLookup rows l = some b := by
  induction rows with
  | nil => exact absurd hc (List.not_mem_nil c)
  | cons r rs ih =>
    unfold existingLookup
    cases hrs : existingLookup rs l with
    | some b => exact ⟨b, by simp [hrs]⟩
    | none =>
      rcases List.mem_cons.mp hc with he | hm
      · subst he
        exact ⟨a, by simp [hrs, hcl, hca]⟩
      · obtain ⟨b, hb⟩ := ih hm
        rw [hb] at hrs
        exact absurd hrs (by simp)

/-- When every checkpoint row carrying the link has abstract a, and at
least one does, the dictionary maps the link to a. -/
theorem existingLookup_eq_some (rows : List Row) (l a : String)
    (hex : ∃ c ∈ rows, c.link = some l ∧ c.abstract = some a)
    (hall : ∀ c ∈ rows, c.link = some l → c.abstract = some a) :
    existingLookup rows l = some a := by
  obtain ⟨c, hc, hcl, hca⟩ := hex
  obtain ⟨b, hb⟩ := existingLookup_isSome rows c l a hc hcl hca
  obtain ⟨c2, hc2, hc2l, hc2a⟩ := existingLookup_mem rows l b hb
  rw [hb, hc2a.symm.trans (hall c2 hc2 hc2l)]

/-! Concrete pages, environments and rows used by counterexamples and
witnesses. -/

/-- A page on which none of the three heuristics matches. -/
def pageEmpty : Page :=
  { citationAbstract := none, abstractHeader := none, abstractClassElem := none }

/-- A server answering 429 to every request. -/
def env429 : String → HttpResult := fun _ => .resp 429 pageEmpty

/-- A page carrying the abstract in the citation_abstract meta tag. -/
def pageMeta : Page :=
  { citationAbstract := some (some ("An abstract.")), abstractHeader := none,
    abstractClassElem := none }

/-- A server answering 200 with pageMeta to every request. -/
def env200 : String → HttpResult := fun _ => .resp 200 pageMeta

/-- First unresolved record of the rate-limit scenario. -/
def c1Row1 : Row :=
  { year := some ("2020"), title := some ("P1"), authors := some ("A1"),
    link := some ("http://a/1"), abstract := none }

/-- Second unresolved record of the rate-limit scenario. -/
def c1Row2 : Row :=
  { year := some ("2021"), title := some ("P2"), authors := some ("A2"),
    link := some ("http://a/2"), abstract := none }

/-- C1: the code is expected to let a 429 response raise a distinguished
rate-limit signal out of get_abstract, aborting the loop before any
further record.  In the source the raise sits inside the try block of
get_abstract whose handler catches Exception, of which
RateLimitException is a subclass: the body does raise the signal (first
conjunct), but get_abstract returns None (second conjunct), so a run
over two records against a 429 server fetches both records (third
conjunct) instead of stopping after the first, and no rate-limit abort
ever reaches the loop (the dedicated handler in main is dead code). -/
theorem c1_rate_limit_swallowed :
    get_abstract_tryBody env429 ("http://a/1") = TryOutcome.raisedRateLimit
    ∧ get_abstract env429 (some ("http://a/1")) = none
    ∧ (mainRun env429 .absent [c1Row1, c1Row2] 2).fetched = [("http://a/1"), ("http://a/2")]
    ∧ (mainRun env429 .absent [c1Row1, c1Row2] 2).df = [c1Row1, c1Row2] := by
  refine ⟨by decide, by decide, by decide, by decide⟩

/-- C4: whatever the exit path of the run loop, normal completion or an
abort after any number stop of completed iterations, the finally clause
rewrites the output artifact with the full current corpus: the
persisted table is exactly the in-memory frame at exit and has the same
number of rows as the merged corpus. -/
theorem c4_persist_on_exit (env : String → HttpResult) (ckpt : Ckpt) (df0 : List Row)
    (stop : Nat) :
    (mainRun env ckpt df0 stop).saved = some ((mainRun env ckpt df0 stop).df)
    ∧ (mainRun env ckpt df0 stop).df.length = ((loadAndMerge ckpt df0).1).length := by
  refine ⟨rfl, ?_⟩
  show (runLoop env (initState ckpt df0) stop).df.length = _
  rw [runLoop_length]
  rfl

/-- C8: a link that is missing, shorter than 5 characters, or ending
case-insensitively in .pdf makes get_abstract return none under every
network environment, and the requests.get call is never reached. -/
theorem c8_guard_skips (env : String → HttpResult) (url : Option String)
    (h : url = none ∨ ∃ u, url = some u ∧
      (pyLen u < 5 ∨ pyEndsWith (pyLower u) (".pdf") = true)) :
    get_abstract env url = none ∧ get_abstract_requests url = [] := by
  rcases h with h | ⟨u, hu, hg⟩
  · subst h; exact ⟨rfl, rfl⟩
  · subst hu
    constructor
    · show (if pyLen u < 5 ∨ pyEndsWith (pyLower u) (".pdf") = true then none
        else
          match get_abstract_tryBody env u with
          | TryOutcome.raisedRateLimit => none
          | TryOutcome.raisedOther => none
          | TryOutcome.returned a => a) = none
      rw [if_pos hg]
    · show (if pyLen u < 5 ∨ pyEndsWith (pyLower u) (".pdf") = true then ([] : List String)
        else [u]) = []
      rw [if_pos hg]

/-- Witness for C8 at the concrete link a.pdf. -/
theorem c8_guard_skips_witness :
    (pyLen ("a.pdf") < 5 ∨ pyEndsWith (pyLower ("a.pdf")) (".pdf") = true)
    ∧ get_abstract env200 (some ("a.pdf")) = none
    ∧ get_abstract_requests (some ("a.pdf")) = [] := by
  refine ⟨by decide, ?_⟩
  have h := c8_guard_skips env200 (some ("a.pdf"))
    (Or.inr ⟨("a.pdf"), rfl, by decide⟩)
  exact ⟨h.1, h.2⟩

/-- C10: the run loop mutates only the Abstract cell: at every index,
the Year, Title, Authors and Link cells after the run, whatever its
termination point, equal their values after load-and-merge. -/
theorem c10_frame_only_abstract (env : String → HttpResult) (ckpt : Ckpt)
    (df0 : List Row) (stop i : Nat) :
    ((mainRun env ckpt df0 stop).df[i]?).map (fun r => (r.year, r.title, r.authors, r.link))
      = (((loadAndMerge ckpt df0).1)[i]?).map (fun r => (r.year, r.title, r.authors, r.link)) := by
  show ((runLoop env (initState ckpt df0) stop).df[i]?).map
      (fun r => (r.year, r.title, r.authors, r.link))
    = ((initState ckpt df0).df[i]?).map (fun r => (r.year, r.title, r.authors, r.link))
  rw [runLoop_getElem]
  by_cases hik : i < stop
  · rw [if_pos hik]
    cases hr : (initState ckpt df0).df[i]? with
    | none => rfl
    | some r =>
      obtain ⟨h1, h2, h3, h4⟩ := stepRow_frame env r
      simp [h1, h2, h3, h4]
  · rw [if_neg hik]

/-- C6: on a status-200 fetch of a usable link, the extraction
heuristics run in priority order; when the page carries a non-empty
citation_abstract meta content, that stripped content is returned, in
particular also when a class-tagged abstract element with different
text is present. -/
theorem c6_extraction_priority (env : String → HttpResult) (u c t : String) (page : Page)
    (hguard : ¬ (pyLen u < 5 ∨ pyEndsWith (pyLower u) (".pdf") = true))
    (henv : env u = HttpResult.resp 200 page)
    (hmeta : page.citationAbstract = some (some c)) (hc : c ≠ (""))
    (_hclass : page.abstractClassElem = some t) :
    get_abstract env (some u) = some (pyStrip c)
    ∧ extractAbstract page = some (pyStrip c)
    ∧ (t ≠ pyStrip c → get_abstract env (some u) ≠ some t) := by
  have hx : extractAbstract page = some (pyStrip c) := by
    unfold extractAbstract
    simp only [hmeta]
    rw [if_neg hc]
  have hg : get_abstract env (some u) = some (pyStrip c) := by
    show (if pyLen u < 5 ∨ pyEndsWith (pyLower u) (".pdf") = true then none
      else
        match get_abstract_tryBody env u with
        | TryOutcome.raisedRateLimit => none
        | TryOutcome.raisedOther => none
        | TryOutcome.returned a => a) = some (pyStrip c)
    rw [if_neg hguard]
    unfold get_abstract_tryBody
    rw [henv]
    norm_num [hx]
  refine ⟨hg, hx, ?_⟩
  intro ht he
  rw [hg] at he
  exact ht (Option.some_inj.mp he).symm

/-- A page carrying both a meta abstract and a class-tagged element with
different text, for the C6 witness. -/
def pageBoth : Page :=
  { citationAbstract := some (some (" Meta text ")), abstractHeader := none,
    abstractClassElem := some ("Class text") }

/-- A server answering 200 with pageBoth, for the C6 witness. -/
def envBoth : String → HttpResult := fun _ => .resp 200 pageBoth

/-- Witness for C6 on a concrete page exposing both a meta abstract and
an abstract-class element. -/
theorem c6_extraction_priority_witness :
    (¬ (pyLen ("http://a/1") < 5 ∨ pyEndsWith (pyLower ("http://a/1")) (".pdf") = true))
    ∧ get_abstract envBoth (some ("http://a/1")) = some (pyStrip (" Meta text "))
    ∧ extractAbstract pageBoth = some (pyStrip (" Meta text "))
    ∧ get_abstract envBoth (some ("http://a/1")) ≠ some ("Class text") := by
  have h := c6_extraction_priority envBoth ("http://a/1") (" Meta text ") ("Class text")
    pageBoth (by decide) rfl rfl (by decide) rfl
  exact ⟨by decide, h.1, h.2.1, h.2.2 (by decide)⟩

/-- C7: a record whose link is missing or the sentinel is skipped by
the run loop before the fetch: the row is bitwise unchanged at every
exit point, and its link string is never handed to get_abstract. -/
theorem c7_sentinel_links (env : String → HttpResult) (ckpt : Ckpt) (df0 : List Row)
    (stop i : Nat) (r : Row)
    (h : ((loadAndMerge ckpt df0).1)[i]? = some r)
    (hl : r.link = none ∨ r.link = some ("N/A")) :
    (mainRun env ckpt df0 stop).df[i]? = some r
    ∧ ∀ l, r.link = some l → l ∉ (mainRun env ckpt df0 stop).fetched := by
  have hinit : (initState ckpt df0).df[i]? = some r := h
  constructor
  · show (runLoop env (initState ckpt df0) stop).df[i]? = some r
    rw [runLoop_getElem]
    by_cases hik : i < stop
    · rw [if_pos hik, hinit]
      simp [stepRow_skip_link env r hl]
    · rw [if_neg hik]; exact hinit
  · intro l hll hmem
    have hf : (mainRun env ckpt df0 stop).fetched
        = ((initState ckpt df0).df.take stop).filterMap attemptRow := by
      show (runLoop env (initState ckpt df0) stop).fetched = _
      rw [runLoop_fetched]
      rfl
    rw [hf] at hmem
    obtain ⟨c2, _, hac⟩ := List.mem_filterMap.mp hmem
    obtain ⟨_, hna, _⟩ := attemptRow_eq_some c2 l hac
    rcases hl with h0 | h0
    · rw [h0] at hll; exact Option.noConfusion hll
    · rw [h0] at hll; exact hna (Option.some_inj.mp hll).symm

/-- An unresolved record with the sentinel link, for the C7 witness. -/
def rowNA : Row :=
  { year := some ("2020"), title := some ("PN"), authors := some ("AN"),
    link := some ("N/A"), abstract := none }

/-- Witness for C7: in a two-record corpus whose first record has link
N/A, a full run leaves that record unchanged and never fetches N/A. -/
theorem c7_sentinel_links_witness :
    ((loadAndMerge .absent [rowNA, c1Row2]).1)[0]? = some rowNA
    ∧ (rowNA.link = none ∨ rowNA.link = some ("N/A"))
    ∧ (mainRun env200 .absent [rowNA, c1Row2] 2).df[0]? = some rowNA
    ∧ ("N/A") ∉ (mainRun env200 .absent [rowNA, c1Row2] 2).fetched := by
  have h := c7_sentinel_links env200 .absent [rowNA, c1Row2] 2 0 rowNA (by decide)
    (Or.inr rfl)
  exact ⟨by decide, Or.inr rfl, h.1, h.2 ("N/A") rfl⟩

/-- Rows of the checkpoint-cadence counterexample: 21 records with the
same fetchable link, of which only the one at index 19 already has an
abstract. -/
def c2Row (i : Nat) : Row :=
  { year := some ("2020"), title := some ("T"), authors := some ("A"),
    link := some ("http://a/b"),
    abstract := if i = 19 then some ("done") else none }

/-- The 21-row corpus of the checkpoint-cadence counterexample. -/
def c2Rows : List Row := (List.range 21).map c2Row

/-- Loop-entry state for the checkpoint-cadence counterexample, no
prior output file. -/
def c2Init : RunState := { df := c2Rows, saved := none, fetched := [] }

set_option maxRecDepth 4000 in
/-- C2 counterexample: the code checkpoints when the 1-based row
position of a processed record is a multiple of 20, not after every 20
processed records.  Here 20 records are processed over 21 rows (index
19 is skipped, so its checkpoint line is never reached), progress is
made, yet the output artifact is never written during the loop: after
processing exactly 20 records it does not reflect the progress. -/
theorem c2_cex :
    processedCount c2Rows 21 = 20
    ∧ (runLoop env200 c2Init 21).saved = none
    ∧ (runLoop env200 c2Init 21).df ≠ c2Rows := by
  refine ⟨by decide, by decide, by decide⟩

/-- C2 as amended: after an iteration that processes (does not skip)
the record at 0-based index i with i + 1 a multiple of 20, the output
artifact holds exactly the current corpus, reflecting all progress so
far. -/
theorem c2_checkpoint_cadence (env : String → HttpResult) (st : RunState) (i : Nat)
    (r : Row) (l : String)
    (hr : st.df[i]? = some r)
    (hres : abstractResolved r.abstract = false)
    (hl : r.link = some l) (hna : l ≠ ("N/A"))
    (hmod : (i + 1) % 20 = 0) :
    (runLoop env st (i + 1)).saved = some ((runLoop env st (i + 1)).df) := by
  rw [runLoop_succ]
  have hstab : (runLoop env st i).df[i]? = some r := by
    rw [runLoop_getElem]
    simp [hr]
  unfold processRow
  rw [hstab]
  simp [hres, hl, hna, hmod]

/-- A single unresolved row with a fetchable link, for witnesses. -/
def rowU : Row :=
  { year := some ("2020"), title := some ("T"), authors := some ("A"),
    link := some ("http://a/b"), abstract := none }

/-- Loop-entry state with 20 unresolved rows, for the C2 witness. -/
def c2wInit : RunState :=
  { df := (List.range 20).map (fun _ => rowU), saved := none, fetched := [] }

/-- Witness for C2 as amended, at index 19 of a 20-row corpus. -/
theorem c2_checkpoint_cadence_witness :
    c2wInit.df[19]? = some rowU
    ∧ abstractResolved rowU.abstract = false
    ∧ rowU.link = some ("http://a/b")
    ∧ ("http://a/b") ≠ ("N/A")
    ∧ (19 + 1) % 20 = 0
    ∧ (runLoop env200 c2wInit (19 + 1)).saved = some ((runLoop env200 c2wInit (19 + 1)).df) := by
  refine ⟨by decide, by decide, rfl, by decide, by decide, ?_⟩
  exact c2_checkpoint_cadence env200 c2wInit 19 rowU ("http://a/b") (by decide) (by decide)
    rfl (by decide) (by decide)

/-- Checkpoint rows for the C9 counterexample: the table carries an
abstract but the Link column is absent. -/
def c9Ck : List Row :=
  [{ year := none, title := none, authors := none, link := some ("http://a/1"),
     abstract := some ("A") }]

/-- Corpus for the C9 counterexample and witness. -/
def c9Df : List Row :=
  [{ year := some ("2020"), title := some ("T"), authors := some ("A"),
     link := some ("http://a/1"), abstract := none }]

/-- C9 counterexample: when the existing output file is readable but
lacks the Link column, the resume step skips the merge and proceeds
over the fresh corpus, but no warning is printed (the warning print
sits only in the handler for a reading failure), contradicting the
claim that a warning is printed in this case. -/
theorem c9_cex :
    (loadAndMerge (.table false true c9Ck) c9Df).1 = c9Df
    ∧ (loadAndMerge (.table false true c9Ck) c9Df).2 ≠ true := by
  refine ⟨by decide, by decide⟩

/-- C9 as amended: an unreadable checkpoint prints the warning, skips
the merge and proceeds over the fresh corpus; a readable checkpoint
lacking the Abstract or Link column silently skips the merge and
proceeds; in neither case does the run fail. -/
theorem c9_resume_fallback (df0 rows : List Row) (hasLink hasAbstract : Bool)
    (h : (hasAbstract && hasLink) = false) :
    loadAndMerge .unreadable df0 = (df0, true)
    ∧ loadAndMerge (.table hasLink hasAbstract rows) df0 = (df0, false) := by
  refine ⟨rfl, ?_⟩
  show (if (hasAbstract && hasLink) = true then (List.map (mergeRow rows) df0, false)
    else (df0, false)) = (df0, false)
  rw [h]
  simp

/-- Witness for C9 as amended at the concrete corpus and checkpoint of
the counterexample. -/
theorem c9_resume_fallback_witness :
    ((true && false) = false)
    ∧ loadAndMerge .unreadable c9Df = (c9Df, true)
    ∧ loadAndMerge (.table false true c9Ck) c9Df = (c9Df, false) := by
  have h := c9_resume_fallback c9Df c9Ck false true (by decide)
  exact ⟨by decide, h.1, h.2⟩

/-- C3: when a prior checkpoint row carries link l and a non-empty
abstract a, and is the only checkpoint row with that link, the merge
step writes a into the corpus row carrying l; moreover a full
subsequent run hands to get_abstract exactly the attempted links of
the merged corpus, and a row whose abstract is resolved is never
attempted. -/
theorem c3_merge_resume (env : String → HttpResult) (ckptRows df0 : List Row) (i : Nat)
    (r c : Row) (l a : String)
    (hdf : df0[i]? = some r) (hrl : r.link = some l)
    (hc : c ∈ ckptRows) (hcl : c.link = some l) (hca : c.abstract = some a)
    (_hane : a ≠ (""))
    (huniq : ∀ c2 ∈ ckptRows, c2.link = some l → c2 = c) :
    ((loadAndMerge (.table true true ckptRows) df0).1)[i]? = some { r with abstract := some a }
    ∧ (mainRun env (.table true true ckptRows) df0 df0.length).fetched
        = ((loadAndMerge (.table true true ckptRows) df0).1).filterMap attemptRow
    ∧ (∀ r2 : Row, abstractResolved r2.abstract = true → attemptRow r2 = none) := by
  have hmerged : (loadAndMerge (.table true true ckptRows) df0).1
      = df0.map (mergeRow ckptRows) := by
    show (if (true && true) = true then (df0.map (mergeRow ckptRows), false)
      else (df0, false)).1 = _
    simp
  have hlook : existingLookup ckptRows l = some a := by
    apply existingLookup_eq_some
    · exact ⟨c, hc, hcl, hca⟩
    · intro c2 hc2 hc2l
      rw [huniq c2 hc2 hc2l, hca]
  refine ⟨?_, ?_, ?_⟩
  · rw [hmerged, List.getElem?_map, hdf]
    show some (mergeRow ckptRows r) = _
    unfold mergeRow
    simp only [hrl, hlook]
  · have hlen : ((loadAndMerge (.table true true ckptRows) df0).1).length = df0.length := by
      rw [hmerged, List.length_map]
    show (runLoop env (initState (.table true true ckptRows) df0) df0.length).fetched = _
    rw [runLoop_fetched]
    show ([] : List String) ++ _ = _
    rw [List.nil_append]
    show (((loadAndMerge (.table true true ckptRows) df0).1).take df0.length).filterMap
      attemptRow = _
    rw [← hlen, List.take_length]
  · exact fun r2 h2 => attemptRow_of_resolved r2 h2

/-- Corpus rows A, B, C for the resume witness, all unresolved. -/
def rowA : Row :=
  { year := some ("2020"), title := some ("PA"), authors := some ("AA"),
    link := some ("http://x/A"), abstract := none }

/-- Second corpus row of the resume witness. -/
def rowB : Row :=
  { year := some ("2021"), title := some ("PB"), authors := some ("AB"),
    link := some ("http://x/B"), abstract := none }

/-- Third corpus row of the resume witness. -/
def rowC : Row :=
  { year := some ("2022"), title := some ("PC"), authors := some ("AC"),
    link := some ("http://x/C"), abstract := none }

/-- Checkpoint of the resume witness: A and B resolved, C not. -/
def ckptABC : List Row :=
  [{ rowA with abstract := some ("absA") },
   { rowB with abstract := some ("absB") },
   rowC]

/-- Witness for C3 on the corpus A, B, C with A and B resolved in the
checkpoint: the merge copies the abstract of A, and a full run attempts
only the link of C. -/
theorem c3_merge_resume_witness :
    ([rowA, rowB, rowC] : List Row)[0]? = some rowA
    ∧ ({ rowA with abstract := some ("absA") } : Row) ∈ ckptABC
    ∧ (∀ c2 ∈ ckptABC, c2.link = some ("http://x/A")
        → c2 = { rowA with abstract := some ("absA") })
    ∧ ((loadAndMerge (.table true true ckptABC) [rowA, rowB, rowC]).1)[0]?
        = some { rowA with abstract := some ("absA") }
    ∧ (mainRun env200 (.table true true ckptABC) [rowA, rowB, rowC] 3).fetched
        = ((loadAndMerge (.table true true ckptABC) [rowA, rowB, rowC]).1).filterMap attemptRow
    ∧ (mainRun env200 (.table true true ckptABC) [rowA, rowB, rowC] 3).fetched
        = [("http://x/C")] := by
  have h := c3_merge_resume env200 ckptABC [rowA, rowB, rowC] 0 rowA
    ({ rowA with abstract := some ("absA") }) ("http://x/A") ("absA")
    (by decide) rfl (by decide) rfl rfl (by decide) (by decide)
  exact ⟨by decide, by decide, by decide, h.1, h.2.1, by decide⟩

/-- A record carrying a whitespace-only, hence non-empty, abstract. -/
def rowWs : Row :=
  { year := some ("2020"), title := some ("T"), authors := some ("A"),
    link := some ("http://a/b"), abstract := some (" ") }

/-- C5 counterexample: the loop skip test strips the abstract before
testing it, so a record whose abstract is the non-empty whitespace
string is handed to get_abstract after all, contradicting the claim
that every record with a non-empty abstract is never re-fetched. -/
theorem c5_cex :
    rowWs.abstract = some (" ")
    ∧ (" ") ≠ ("")
    ∧ (mainRun env200 .absent [rowWs] 1).fetched = [("http://a/b")] := by
  refine ⟨rfl, by decide, by decide⟩

/-- Merging the final frame of a completed run back into the same
corpus reproduces that final frame, when links are unique across the
corpus. -/
theorem merge_run_fixpoint (env : String → HttpResult) (df0 : List Row)
    (hp : df0.Pairwise (fun r s => r.link = none ∨ r.link ≠ s.link)) :
    df0.map (mergeRow (df0.map (stepRow env))) = df0.map (stepRow env) := by
  apply List.ext_getElem?
  intro i
  rw [List.getElem?_map, List.getElem?_map]
  cases hdf : df0[i]? with
  | none => rfl
  | some r =>
    obtain ⟨hilen, hdfi⟩ := List.getElem?_eq_some_iff.mp hdf
    show some (mergeRow (df0.map (stepRow env)) r) = some (stepRow env r)
    congr 1
    cases hrl : r.link with
    | none =>
      unfold mergeRow
      simp only [hrl]
      rw [stepRow_skip_link env r (Or.inl hrl)]
    | some l =>
      have huniq : ∀ m ∈ df0.map (stepRow env), m.link = some l → m = stepRow env r := by
        intro m hm hml
        obtain ⟨j, hj, hjm⟩ := List.mem_iff_getElem.mp hm
        have hjlen : j < df0.length := by simpa using hj
        have hjm2 : stepRow env df0[j] = m := by
          rw [← hjm, List.getElem_map]
        have hlink : df0[j].link = some l := by
          rw [← (stepRow_frame env (df0[j])).2.2.2, hjm2]
          exact hml
        have hij : j = i := by
          by_contra hne
          have hpg := List.pairwise_iff_getElem.mp hp
          rcases Nat.lt_or_ge j i with hlt | hge
          · rcases hpg j i hjlen hilen hlt with h0 | h0
            · rw [h0] at hlink; exact Option.noConfusion hlink
            · exact h0 (by rw [hlink, hdfi, hrl])
          · have hgt : i < j := by omega
            rcases hpg i j hilen hjlen hgt with h0 | h0
            · rw [hdfi, hrl] at h0; exact Option.noConfusion h0
            · exact h0 (by rw [hdfi, hrl, hlink])
        subst hij
        rw [← hjm2, hdfi]
      cases habs : (stepRow env r).abstract with
      | some a =>
        have hlook : existingLookup (df0.map (stepRow env)) l = some a := by
          apply existingLookup_eq_some
          · refine ⟨stepRow env r, ?_, ?_, habs⟩
            · exact List.mem_map.mpr ⟨r, List.mem_iff_getElem.mpr ⟨i, hilen, hdfi⟩, rfl⟩
            · rw [(stepRow_frame env r).2.2.2, hrl]
          · intro c2 hc2 hc2l
            rw [huniq c2 hc2 hc2l, habs]
        unfold mergeRow
        simp only [hrl, hlook]
        rcases stepRow_cases env r with hcase | ⟨t, _, _, hcase⟩
        · rw [hcase] at habs ⊢
          rw [← hrl, ← habs]
        · rw [hcase] at habs ⊢
          have : t = a := by simpa using habs
          rw [this, hrl]
      | none =>
        have hlook : existingLookup (df0.map (stepRow env)) l = none := by
          cases hl2 : existingLookup (df0.map (stepRow env)) l with
          | none => rfl
          | some b =>
            obtain ⟨c2, hc2, hc2l, hc2a⟩ := existingLookup_mem _ l b hl2
            rw [huniq c2 hc2 hc2l, habs] at hc2a
            exact Option.noConfusion hc2a
        unfold mergeRow
        simp only [hrl, hlook]
        rcases stepRow_cases env r with hcase | ⟨t, _, _, hcase⟩
        · rw [hcase]
        · rw [hcase] at habs
          simp at habs

/-- C5 as amended: with unique links, running the resolver a second
time over the same input, resuming from the first run's output, leaves
the frame unchanged and persists the same artifact; and a record whose
abstract is non-blank after stripping is never attempted. -/
theorem c5_idempotent_resume (env : String → HttpResult) (df0 : List Row)
    (hp : df0.Pairwise (fun r s => r.link = none ∨ r.link ≠ s.link)) :
    (mainRun env (.table true true ((mainRun env .absent df0 df0.length).df)) df0 df0.length).df
      = (mainRun env .absent df0 df0.length).df
    ∧ (mainRun env (.table true true ((mainRun env .absent df0 df0.length).df)) df0
        df0.length).saved = some ((mainRun env .absent df0 df0.length).df)
    ∧ (∀ r2 : Row, abstractResolved r2.abstract = true → attemptRow r2 = none) := by
  have hout1 : (mainRun env .absent df0 df0.length).df = df0.map (stepRow env) := by
    show (runLoop env (initState .absent df0) df0.length).df = _
    exact runLoop_df_map env _ df0.length (Nat.le_refl _)
  have hm2 : (loadAndMerge (.table true true ((mainRun env .absent df0 df0.length).df)) df0).1
      = df0.map (stepRow env) := by
    rw [hout1]
    show (if (true && true) = true
      then (df0.map (mergeRow (df0.map (stepRow env))), false) else (df0, false)).1 = _
    simp [merge_run_fixpoint env df0 hp]
  have hle : ((loadAndMerge (.table true true ((mainRun env .absent df0 df0.length).df))
      df0).1).length ≤ df0.length := by
    rw [hm2, List.length_map]
  have hrun2 : (mainRun env (.table true true ((mainRun env .absent df0 df0.length).df)) df0
      df0.length).df = df0.map (stepRow env) := by
    show (runLoop env (initState (.table true true ((mainRun env .absent df0
      df0.length).df)) df0) df0.length).df = _
    rw [runLoop_df_map env _ df0.length hle]
    show List.map (stepRow env) ((loadAndMerge (.table true true ((mainRun env .absent df0
      df0.length).df)) df0).1) = _
    rw [hm2, List.map_map]
    exact List.map_congr_left (fun r _ => stepRow_idem env r)
  refine ⟨hrun2.trans hout1.symm, ?_, fun r2 h2 => attemptRow_of_resolved r2 h2⟩
  have hsv : (mainRun env (.table true true ((mainRun env .absent df0 df0.length).df)) df0
      df0.length).saved = some ((mainRun env (.table true true ((mainRun env .absent df0
      df0.length).df)) df0 df0.length).df) := rfl
  rw [hsv, hrun2, ← hout1]

/-- Witness for C5 as amended on a two-record corpus with distinct
links. -/
theorem c5_idempotent_resume_witness :
    ([rowA, rowB] : List Row).Pairwise (fun r s => r.link = none ∨ r.link ≠ s.link)
    ∧ (mainRun env200 (.table true true ((mainRun env200 .absent [rowA, rowB]
        ([rowA, rowB] : List Row).length).df)) [rowA, rowB]
        ([rowA, rowB] : List Row).length).df
      = (mainRun env200 .absent [rowA, rowB] ([rowA, rowB] : List Row).length).df := by
  refine ⟨by decide, ?_⟩
  exact (c5_idempotent_resume env200 [rowA, rowB] (by decide)).1

end Scrap
